import Mathlib

/-!
Verification development for the tarock entry store and ranking engine
(`tarock10.py`).  The Python core is shallowly embedded: the `MainWindow`
fields that carry core state (`entries`, `current_index`, `mapping`,
`mapping_edits`) become an explicit `AppState`, the slots become pure state
transformers, and the file/stdout side effects become append-only logs on
the state.  Machine integers are `Int`/`Nat` (Python ints are unbounded, so
no wraparound modelling is needed).
-/

namespace Tarock

/-! ## Python string primitives

The embedding models the fragment of Python's `str` behaviour the program
relies on: `str.strip` (default whitespace), `str.isdigit` (on ASCII
digits), `int(...)` parsing, `str(int)` rendering, `",".join`, and the
splitting done by `csv.reader` on unquoted input. -/

/-- Models Python `str.strip()` with no argument: drop whitespace from both
ends.  (`Char.isWhitespace` covers space, tab, CR, LF, which is the ASCII
fragment Python strips.) -/
def pyStrip (s : String) : String :=
  ⟨((s.data.dropWhile Char.isWhitespace).reverse.dropWhile Char.isWhitespace).reverse⟩

/-- Models Python `str.isdigit()` on ASCII input: non-empty and all digits. -/
def pyIsdigit (s : String) : Bool :=
  !s.data.isEmpty && s.data.all Char.isDigit

/-- Value of a digit string, most significant digit first. -/
def strVal (cs : List Char) : Nat :=
  cs.foldl (fun a c => 10 * a + (c.toNat - 48)) 0

/-- Decimal digits of `n`, most significant first; fuel-structural so that
concrete evaluation reduces in the kernel.  Any `fuel > n` is enough. -/
def natDigitsAux : Nat → Nat → List Char
  | 0, _ => []
  | fuel+1, n =>
    if n < 10 then [Nat.digitChar n]
    else natDigitsAux fuel (n / 10) ++ [Nat.digitChar (n % 10)]

/-- Decimal rendering of a natural number. -/
def natStr (n : Nat) : String := ⟨natDigitsAux (n + 1) n⟩

/-- Models Python `str()` on an integer: optional minus sign plus decimal
digits. -/
def pyStr (i : Int) : String :=
  if i < 0 then "-" ++ natStr i.natAbs else natStr i.toNat

/-- Models Python `int(s)` on the inputs this program feeds it: surrounding
whitespace stripped, optional sign, then decimal digits; anything else
raises `ValueError`, modelled as `none`. -/
def pyInt? (s : String) : Option Int :=
  match (pyStrip s).data with
  | [] => none
  | c :: rest =>
    if c = '-' then
      if !rest.isEmpty && rest.all Char.isDigit then some (-(strVal rest : Int)) else none
    else if c = '+' then
      if !rest.isEmpty && rest.all Char.isDigit then some ((strVal rest : Int)) else none
    else if (c :: rest).all Char.isDigit then some ((strVal (c :: rest) : Int)) else none

/-- Models Python `sep.join(strings)` for a one-character separator. -/
def joinStr (sep : Char) : List String → String
  | [] => ""
  | [s] => s
  | s :: t :: rest => s ++ ⟨[sep]⟩ ++ joinStr sep (t :: rest)

/-- Split a character list at every occurrence of `sep`; always returns at
least one group. -/
def splitOnChar (sep : Char) : List Char → List (List Char)
  | [] => [[]]
  | c :: cs =>
    match splitOnChar sep cs with
    | [] => [[]]
    | g :: gs => if c = sep then [] :: g :: gs else (c :: g) :: gs

/-- Models `csv.reader` on the unquoted comma-separated text this program
writes and reads: split into lines, then each line into comma-separated
fields.  (Quoting and `\r\n` terminators are outside the modelled domain;
the rows this produces for blank lines are rejected by every caller exactly
as `csv.reader`'s empty rows are.) -/
def csvParse (text : String) : List (List String) :=
  (splitOnChar '\n' text.data).map
    (fun line => (splitOnChar ',' line).map (fun f => (⟨f⟩ : String)))

/-! ## Data model -/

/-- One seat of an entry: raw stored identifier and points
(`{"name": ..., "points": ...}` in the source). -/
structure Person where
  name : String
  points : Int
deriving DecidableEq, Repr

/-- One scoring record (`{"table": ..., "round": ..., "people": [...]}`). -/
structure Entry where
  table : Int
  round : Int
  people : List Person
deriving DecidableEq, Repr

/-- The form contents read by `_on_submit` / `_on_change`: the table text
field, the round spinbox value, and the four (player-number field, points
spinbox) pairs.  The UI always supplies exactly 4 players; the spinboxes
clamp `round` to `1..1000` and `points` to `-100..100`. -/
structure FormInput where
  tableText : String
  round : Int
  players : List (String × Int)
deriving DecidableEq, Repr

/-- The core state of `MainWindow`.  `statusLog` records every
`status_lbl.setText` call in order (the label shows the last one);
`stdoutLog` records every `print`; `saveLog` records each CSV text passed
to a `result.csv` write attempt; `rankingFile` is the last successful
`ranking.csv` write. -/
structure AppState where
  entries : List Entry
  current_index : Int
  mapping : List (Int × String)
  mappingEdits : List (String × String)
  statusLog : List String
  stdoutLog : List String
  saveLog : List String
  rankingFile : Option String
deriving DecidableEq, Repr

/-- State right after `_build_ui`: empty store, cursor -1, empty mapping
dict, 20 blank mapping rows. -/
def initState : AppState :=
  { entries := []
    current_index := -1
    mapping := []
    mappingEdits := List.replicate 20 ("", "")
    statusLog := []
    stdoutLog := []
    saveLog := []
    rankingFile := none }

/-! ## Serialization (`_entries_to_csv`, `_save_to_file`) -/

/-- The header row built in `_entries_to_csv`. -/
def csvHeader : String :=
  "Table,Round," ++
    joinStr ','
      ((List.range 4).map (fun i => "Player_Number" ++ natStr (i+1) ++ ",Points" ++ natStr (i+1)))

/-- One data row: table, round, then each person's name and points as
adjacent fields in seat order. -/
def entryRow (e : Entry) : String :=
  joinStr ','
    (e.people.foldl (fun acc p => acc ++ [p.name, pyStr p.points])
      [pyStr e.table, pyStr e.round])

/-- `_entries_to_csv`: header row then one row per entry, newline-joined. -/
def entriesToCsv (es : List Entry) : String :=
  joinStr '\n' (csvHeader :: es.map entryRow)

/-- `_save_to_file`: print the CSV text and attempt the `result.csv`
write.  (The text is never empty because the header is constant, so the
`if csv_text:` guard is live only in the model.) -/
def saveToFile (s : AppState) : AppState :=
  let csvText := entriesToCsv s.entries
  if csvText = "" then s
  else { s with stdoutLog := s.stdoutLog ++ [csvText], saveLog := s.saveLog ++ [csvText] }

/-! ## Store operations -/

/-- The entry built by `_on_submit`/`_on_change` once validation passed:
`int(table_text)` (digits only at this point), the spinbox round, and the
stripped player fields zipped with the points spinboxes. -/
def entryOfInput (inp : FormInput) : Entry :=
  { table := (strVal (pyStrip inp.tableText).data : Int)
    round := inp.round
    people := inp.players.map (fun pr => { name := pyStrip pr.1, points := pr.2 }) }

/-- `_on_submit`: validate the table text and the four player fields, then
append, move the cursor to the new entry, and persist. -/
def onSubmit (inp : FormInput) (s : AppState) : AppState :=
  if !(pyIsdigit (pyStrip inp.tableText)) then
    { s with statusLog := s.statusLog ++ ["Table number must be an integer."] }
  else if (inp.players.map (fun pr => pyStrip pr.1)).any (fun n => n == "") then
    { s with statusLog := s.statusLog ++ ["All four player number fields must be filled."] }
  else
    let es := s.entries ++ [entryOfInput inp]
    saveToFile { s with entries := es, current_index := (es.length : Int) - 1 }

/-- Python list assignment `l[i] = x` (negative indices count from the
end). -/
def pySet (l : List Entry) (i : Int) (x : Entry) : List Entry :=
  if i < 0 then l.set ((l.length : Int) + i).toNat x else l.set i.toNat x

/-- Python `del l[i]` (negative indices count from the end). -/
def pyDelete (l : List Entry) (i : Int) : List Entry :=
  if i < 0 then l.eraseIdx ((l.length : Int) + i).toNat else l.eraseIdx i.toNat

/-- `_on_change`: same validation as submit, requires a selection, replaces
the entry at the cursor in place, persists. -/
def onChange (inp : FormInput) (s : AppState) : AppState :=
  if s.current_index = -1 then
    { s with statusLog := s.statusLog ++ ["No entry selected to change."] }
  else if !(pyIsdigit (pyStrip inp.tableText)) then
    { s with statusLog := s.statusLog ++ ["Table number must be an integer."] }
  else if (inp.players.map (fun pr => pyStrip pr.1)).any (fun n => n == "") then
    { s with statusLog := s.statusLog ++ ["All four player number fields must be filled."] }
  else
    saveToFile { s with entries := pySet s.entries s.current_index (entryOfInput inp) }

/-- `_show_previous`. -/
def showPrevious (s : AppState) : AppState :=
  if s.entries.isEmpty then
    { s with statusLog := s.statusLog ++ ["No entries stored yet."] }
  else if s.current_index ≤ 0 then
    { s with statusLog := s.statusLog ++ ["Already at the first entry."] }
  else
    saveToFile { s with current_index := s.current_index - 1 }

/-- `_show_next`. -/
def showNext (s : AppState) : AppState :=
  if s.entries.isEmpty then
    { s with statusLog := s.statusLog ++ ["No entries stored yet."] }
  else if (s.entries.length : Int) - 1 ≤ s.current_index then
    { s with statusLog := s.statusLog ++ ["Already at the last entry."] }
  else
    saveToFile { s with current_index := s.current_index + 1 }

/-- `_delete_current`: the confirmation dialog's answer is passed in as
`confirmed`; a declined dialog returns before any mutation. -/
def deleteCurrent (confirmed : Bool) (s : AppState) : AppState :=
  if s.entries.isEmpty then
    { s with statusLog := s.statusLog ++ ["No entries to delete."] }
  else if !confirmed then s
  else
    let es := pyDelete s.entries s.current_index
    let s1 :=
      if es.isEmpty then
        { s with entries := es, current_index := -1,
                 statusLog := s.statusLog ++ ["All entries deleted."] }
      else if (es.length : Int) ≤ s.current_index then
        { s with entries := es, current_index := (es.length : Int) - 1 }
      else
        { s with entries := es }
    saveToFile s1

/-! ## Deserialization (`_load_from_file`) -/

/-- Parse one data row the way the loop body of `_load_from_file` does:
`int(row[0])`, `int(row[1])`, then for each of the 4 seats the name at
column `2+2i` and `int` of the points at `3+2i`.  Extra columns are
ignored; a missing column (`IndexError`) or failed `int` (`ValueError`)
aborts the row, modelled as `none`. -/
def parseRow (row : List String) : Option Entry :=
  match row with
  | t :: r :: n1 :: p1 :: n2 :: p2 :: n3 :: p3 :: n4 :: p4 :: _ =>
    match pyInt? t, pyInt? r, pyInt? p1, pyInt? p2, pyInt? p3, pyInt? p4 with
    | some tv, some rv, some q1, some q2, some q3, some q4 =>
      some { table := tv, round := rv,
             people := [⟨n1, q1⟩, ⟨n2, q2⟩, ⟨n3, q3⟩, ⟨n4, q4⟩] }
    | _, _, _, _, _, _ => none
  | _ => none

/-- Run the row loop: rows are appended one by one; the first failing row
raises, which stops the loop with the already-appended prefix kept.  The
boolean reports whether all rows parsed. -/
def parseRows : List (List String) → List Entry × Bool
  | [] => ([], true)
  | r :: rs =>
    match parseRow r with
    | none => ([], false)
    | some e => let p := parseRows rs; (e :: p.1, p.2)

/-- `_load_from_file`, with the file contents passed in as `text` (a
missing file corresponds to not calling this at all).  Fewer than two CSV
rows: return untouched.  Otherwise append every row parsed before the first
malformed one and, if a row was malformed, surface the read-error
message. -/
def loadFromFile (s : AppState) (text : String) : AppState :=
  let rows := csvParse text
  if rows.length < 2 then s
  else
    let p := parseRows (rows.drop 1)
    let s1 := { s with entries := s.entries ++ p.1 }
    if p.2 then s1
    else { s1 with statusLog := s1.statusLog ++ ["Could not read result.csv: <error>"] }

/-! ## Mapping load (`_load_mapping_from_file`) -/

/-- The row loop of `_load_mapping_from_file`: `enumerate` counts every
row (also skipped ones); rows with fewer than 2 fields or an unparsable
number are skipped; once `idx` reaches the number of UI slots the loop
breaks; otherwise slot `idx` receives `(str(num), name)`.
Note the loop only writes the UI line edits - `self.mapping` is untouched. -/
def loadMappingGo : Nat → List (List String) → List (String × String) → List (String × String)
  | _, [], edits => edits
  | idx, row :: rest, edits =>
    match row with
    | a :: b :: _ =>
      (match pyInt? (pyStrip a) with
       | none => loadMappingGo (idx+1) rest edits
       | some num =>
         if edits.length ≤ idx then edits
         else loadMappingGo (idx+1) rest (edits.set idx (pyStr num, pyStrip b)))
    | _ => loadMappingGo (idx+1) rest edits

/-- `_load_mapping_from_file` with the parsed CSV rows passed in; the
header row is skipped by `next(reader, None)`. -/
def loadMappingFromFile (rows : List (List String)) (s : AppState) : AppState :=
  { s with mappingEdits := loadMappingGo 0 (rows.drop 1) s.mappingEdits }

/-- The `__init__` sequence after `_build_ui`: load the mapping file, load
the entries file, and if any entries were loaded start at the first one. -/
def startup (mapRows : List (List String)) (csvText : String) : AppState :=
  let s := loadFromFile (loadMappingFromFile mapRows initState) csvText
  if s.entries.isEmpty then s else { s with current_index := 0 }

/-! ## Ranking (`_on_sum_and_rank`) -/

/-- Python `dict.get` on the mapping dict. -/
def dictGet (m : List (Int × String)) (k : Int) : Option String :=
  match m.find? (fun kv => kv.1 == k) with
  | some kv => some kv.2
  | none => none

/-- `self.mapping.get(int(name), name) if name.isdigit() else name`. -/
def resolveName (m : List (Int × String)) (name : String) : String :=
  if pyIsdigit name then
    match dictGet m (strVal name.data : Int) with
    | some v => v
    | none => name
  else name

/-- `totals[name] = totals.get(name, 0) + pts` on an insertion-ordered
dict: update the existing key in place or append a fresh one. -/
def bump : List (String × Int) → String → Int → List (String × Int)
  | [], nm, pts => [(nm, pts)]
  | (k, v) :: rest, nm, pts =>
    if k = nm then (k, v + pts) :: rest else (k, v) :: bump rest nm pts

/-- Accumulate one entry's four people into the totals dict. -/
def accumEntry (acc : List (String × Int)) (e : Entry) : List (String × Int) :=
  e.people.foldl (fun acc p => bump acc p.name p.points) acc

/-- The totals dict after the accumulation loop. -/
def accumTotals (es : List Entry) : List (String × Int) :=
  es.foldl accumEntry []

/-- Lexicographic strict comparison of char lists by code point - Python's
string `<`. -/
def charListLt : List Char → List Char → Bool
  | [], [] => false
  | [], _ :: _ => true
  | _ :: _, [] => false
  | a :: as, b :: bs => decide (a < b) || (decide (a = b) && charListLt as bs)

/-- Python string `<`. -/
def strLtB (s t : String) : Bool := charListLt s.data t.data

/-- The sort order of `sorted(totals.items(), key=lambda kv: (-kv[1], kv[0]))`:
`a` comes no later than `b` iff `a`'s total is larger, or the totals tie and
`a`'s name is lexicographically no larger. -/
def rankLeB (a b : String × Int) : Bool :=
  decide (b.2 < a.2) || (decide (a.2 = b.2) && !(strLtB b.1 a.1))

/-- Insert into a `rankLeB`-sorted list. -/
def insertRank (x : String × Int) : List (String × Int) → List (String × Int)
  | [] => [x]
  | y :: ys => if rankLeB x y then x :: y :: ys else y :: insertRank x ys

/-- `sorted(totals.items(), key=lambda kv: (-kv[1], kv[0]))`.  The key is
injective on dict items (names are unique), so any correct sort agrees
with Python's; insertion sort keeps everything kernel-computable. -/
def sortTotals (l : List (String × Int)) : List (String × Int) :=
  l.foldr insertRank []

/-- Header of the ranking report. -/
def rankHeader : String := "Rank,Player_Number,Player_Name,Total Points"

/-- The formatted ranking rows: 1-based rank, raw name, resolved display
name, total. -/
def rankLines (m : List (Int × String)) (sorted : List (String × Int)) : List String :=
  sorted.enum.map (fun p =>
    joinStr ',' [natStr (p.1 + 1), p.2.1, resolveName m p.2.1, pyStr p.2.2])

/-- The full ranking CSV text computed by `_on_sum_and_rank`. -/
def rankingCsvOf (s : AppState) : String :=
  joinStr '\n' (rankHeader :: rankLines s.mapping (sortTotals (accumTotals s.entries)))

/-- `_on_sum_and_rank`: refuse on an empty store; otherwise print the
computed ranking, attempt the `ranking.csv` write (reporting a failure),
and finally - unconditionally - set the success status.  (The debug
`print(entry)` of each entry inside the accumulation loop is not modelled;
`stdoutLog` records the ranking report the operation emits.) -/
def sumAndRank (writeOk : Bool) (s : AppState) : AppState :=
  if s.entries.isEmpty then
    { s with statusLog := s.statusLog ++ ["No entries to rank."] }
  else
    let csv := rankingCsvOf s
    let s1 := { s with stdoutLog := s.stdoutLog ++ [csv] }
    let s2 :=
      if writeOk then { s1 with rankingFile := some csv }
      else { s1 with statusLog := s1.statusLog ++ ["Could not write ranking.csv: <error>"] }
    { s2 with statusLog := s2.statusLog ++ ["Ranking generated – see console / ranking.csv."] }

/-! ## The operations of the store, as one step relation -/

/-- The store operations named by the cursor invariant claim. -/
inductive Op where
  | submit (inp : FormInput)
  | change (inp : FormInput)
  | prev
  | next
  | deleteCur (confirmed : Bool)
deriving Repr

/-- Dispatch one operation. -/
def step : Op → AppState → AppState
  | .submit inp, s => onSubmit inp s
  | .change inp, s => onChange inp s
  | .prev, s => showPrevious s
  | .next, s => showNext s
  | .deleteCur c, s => deleteCurrent c s

/-- The cursor invariant: `current_index` is -1 exactly on an empty store,
and otherwise a valid index. -/
def Inv (s : AppState) : Prop :=
  (s.current_index = -1 ↔ s.entries = []) ∧
  (s.entries ≠ [] → 0 ≤ s.current_index ∧ s.current_index < (s.entries.length : Int))

instance (s : AppState) : Decidable (Inv s) := by
  unfold Inv; infer_instance

/-! ## String helper lemmas -/

theorem str_ext : ∀ {s t : String}, s.data = t.data → s = t
  | ⟨_⟩, ⟨_⟩, h => congrArg String.mk h

theorem data_append : ∀ (s t : String), (s ++ t).data = s.data ++ t.data
  | ⟨_⟩, ⟨_⟩ => rfl

theorem str_append_assoc (s t u : String) : s ++ t ++ u = s ++ (t ++ u) :=
  str_ext (by simp [data_append])

theorem joinStr_cons_cons (sep : Char) (a b : String) (l : List String) :
    joinStr sep (a :: b :: l) = a ++ (⟨[sep]⟩ : String) ++ joinStr sep (b :: l) := rfl

theorem joinStr_concat (sep : Char) (x : String) :
    ∀ (l : List String) (a : String),
      joinStr sep (a :: (l ++ [x])) = joinStr sep (a :: l) ++ (⟨[sep]⟩ : String) ++ x := by
  intro l
  induction l with
  | nil => intro a; rfl
  | cons b l ih =>
    intro a
    calc joinStr sep (a :: b :: (l ++ [x]))
        = a ++ (⟨[sep]⟩ : String) ++ joinStr sep (b :: (l ++ [x])) := rfl
      _ = a ++ (⟨[sep]⟩ : String) ++ (joinStr sep (b :: l) ++ (⟨[sep]⟩ : String) ++ x) := by
          rw [ih]
      _ = (a ++ (⟨[sep]⟩ : String) ++ joinStr sep (b :: l)) ++ (⟨[sep]⟩ : String) ++ x := by
          apply str_ext; simp [data_append, List.append_assoc]
      _ = joinStr sep (a :: b :: l) ++ (⟨[sep]⟩ : String) ++ x := rfl

/-! ## Small facts about the operations -/

theorem saveToFile_entries (s : AppState) : (saveToFile s).entries = s.entries := by
  unfold saveToFile; dsimp only; split <;> rfl

theorem saveToFile_current_index (s : AppState) :
    (saveToFile s).current_index = s.current_index := by
  unfold saveToFile; dsimp only; split <;> rfl

/-! ## Claim theorems -/

/-- C8: submit with any empty player-name field returns a validation error
(one of the two validation status messages) and leaves the entry sequence,
the cursor and the persisted-file write log exactly unchanged. -/
theorem submit_empty_name_rejected (s : AppState) (inp : FormInput)
    (h : ∃ pr ∈ inp.players, pr.1 = "") :
    (onSubmit inp s).entries = s.entries ∧
    (onSubmit inp s).current_index = s.current_index ∧
    (onSubmit inp s).saveLog = s.saveLog ∧
    ((onSubmit inp s).statusLog = s.statusLog ++ ["Table number must be an integer."] ∨
     (onSubmit inp s).statusLog =
       s.statusLog ++ ["All four player number fields must be filled."]) := by
  obtain ⟨pr, hmem, hempty⟩ := h
  unfold onSubmit
  by_cases ht : pyIsdigit (pyStrip inp.tableText)
  · have hany : (inp.players.map (fun pr => pyStrip pr.1)).any (fun n => n == "") = true := by
      rw [List.any_eq_true]
      refine ⟨pyStrip pr.1, List.mem_map_of_mem _ hmem, ?_⟩
      rw [hempty]; rfl
    rw [if_neg (by simp [ht]), if_pos hany]
    exact ⟨rfl, rfl, rfl, Or.inr rfl⟩
  · rw [if_pos (by simp [ht])]
    exact ⟨rfl, rfl, rfl, Or.inl rfl⟩

/-- Witness for the C8 theorem at a concrete store and input. -/
theorem submit_empty_name_witness :
    (∃ pr ∈ ([("", 3), ("5", 0), ("6", 0), ("7", 0)] : List (String × Int)), pr.1 = "") ∧
    (onSubmit ⟨"12", 1, [("", 3), ("5", 0), ("6", 0), ("7", 0)]⟩ initState).entries
      = initState.entries :=
  ⟨⟨("", 3), by decide, rfl⟩,
   (submit_empty_name_rejected initState ⟨"12", 1, [("", 3), ("5", 0), ("6", 0), ("7", 0)]⟩
     ⟨("", 3), by decide, rfl⟩).1⟩

/-- C10: with the store non-empty and the confirmation dialog declined,
`_delete_current` changes nothing at all - state equality covers the entry
sequence, the cursor, and the write log (no file rewrite). -/
theorem delete_unconfirmed_noop (s : AppState) (h : s.entries ≠ []) :
    deleteCurrent false s = s := by
  unfold deleteCurrent
  rw [if_neg (by simp [List.isEmpty_iff, h])]
  rfl

/-- Witness for the C10 theorem at a concrete non-empty store. -/
theorem delete_unconfirmed_witness :
    ({ initState with entries := [⟨1, 1, []⟩], current_index := 0 } : AppState).entries ≠ [] ∧
    deleteCurrent false { initState with entries := [⟨1, 1, []⟩], current_index := 0 }
      = { initState with entries := [⟨1, 1, []⟩], current_index := 0 } :=
  ⟨by decide,
   delete_unconfirmed_noop { initState with entries := [⟨1, 1, []⟩], current_index := 0 }
     (by decide)⟩

/-- C9: serialization format.  The header is exactly the claimed string;
appending an entry appends exactly one data row; a data row lists table,
round, then each person's name and points as adjacent fields in seat
order; and the concrete submit scenario yields cursor 0 and exactly the
claimed single data row. -/
theorem serialize_format :
    csvHeader =
      "Table,Round,Player_Number1,Points1,Player_Number2,Points2,Player_Number3,Points3,Player_Number4,Points4" ∧
    (∀ (es : List Entry) (e : Entry),
      entriesToCsv (es ++ [e]) = entriesToCsv es ++ "\n" ++ entryRow e) ∧
    (∀ (tbl rnd : Int) (a b c d : Person),
      entryRow ⟨tbl, rnd, [a, b, c, d]⟩ =
        pyStr tbl ++ "," ++ pyStr rnd ++ "," ++
        a.name ++ "," ++ pyStr a.points ++ "," ++ b.name ++ "," ++ pyStr b.points ++ "," ++
        c.name ++ "," ++ pyStr c.points ++ "," ++ d.name ++ "," ++ pyStr d.points) ∧
    (onSubmit ⟨"12", 1, [("7", 10), ("3", -5), ("9", 0), ("1", 15)]⟩ initState).current_index
      = 0 ∧
    entriesToCsv
        (onSubmit ⟨"12", 1, [("7", 10), ("3", -5), ("9", 0), ("1", 15)]⟩ initState).entries =
      "Table,Round,Player_Number1,Points1,Player_Number2,Points2,Player_Number3,Points3,Player_Number4,Points4\n12,1,7,10,3,-5,9,0,1,15" := by
  refine ⟨by decide, ?_, ?_, by decide, by decide⟩
  · intro es e
    unfold entriesToCsv
    rw [List.map_append]
    exact joinStr_concat '\n' (entryRow e) (es.map entryRow) csvHeader
  · intro tbl rnd a b c d
    apply str_ext
    simp [entryRow, joinStr, data_append, List.append_assoc]

/-- An entries file whose second data row is malformed. -/
def badLoadText : String :=
  "Table,Round,Player_Number1,Points1,Player_Number2,Points2,Player_Number3,Points3,Player_Number4,Points4\n1,1,a,1,b,2,c,3,d,4\nbad"

/-- C2 counterexample: on an input with one valid row followed by a
malformed row, the load does surface the read error, but the store is NOT
left empty - the valid prefix row is kept, refuting the claim's
"the caller's entry store is left empty". -/
theorem load_partial_prefix_cex :
    (loadFromFile initState badLoadText).entries =
      [⟨1, 1, [⟨"a", 1⟩, ⟨"b", 2⟩, ⟨"c", 3⟩, ⟨"d", 4⟩]⟩] ∧
    (loadFromFile initState badLoadText).entries ≠ [] ∧
    (loadFromFile initState badLoadText).statusLog =
      ["Could not read result.csv: <error>"] := by
  exact ⟨by decide, by decide, by decide⟩

/-- C2 amended: a malformed row stops the load at that row; the caller
keeps exactly the entries parsed from the rows before the first malformed
one (possibly a non-empty prefix) and the read-error message is
surfaced. -/
theorem load_stops_at_first_bad_row :
    (∀ (pre : List (List String)) (bad : List String) (rest : List (List String)),
      (∀ r ∈ pre, (parseRow r).isSome) → parseRow bad = none →
      parseRows (pre ++ bad :: rest) = (pre.filterMap parseRow, false)) ∧
    (∀ (s : AppState) (text : String),
      2 ≤ (csvParse text).length →
      (parseRows ((csvParse text).drop 1)).2 = false →
      (loadFromFile s text).entries = s.entries ++ (parseRows ((csvParse text).drop 1)).1 ∧
      (loadFromFile s text).statusLog =
        s.statusLog ++ ["Could not read result.csv: <error>"]) := by
  constructor
  · intro pre bad rest hpre hbad
    induction pre with
    | nil => simp [parseRows, hbad]
    | cons r pre ih =>
      obtain ⟨e, he⟩ := Option.isSome_iff_exists.mp (hpre r (by simp))
      have ih' := ih (fun r hr => hpre r (by simp [hr]))
      simp only [List.cons_append, parseRows, he, List.filterMap_cons, List.append_eq, ih']
  · intro s text hlen hfail
    unfold loadFromFile
    rw [if_neg (by omega)]
    simp only [hfail]
    exact ⟨rfl, rfl⟩

/-- Witness for the C2 amended theorem at the concrete malformed file. -/
theorem load_stops_witness :
    parseRows ([["1", "1", "a", "1", "b", "2", "c", "3", "d", "4"]] ++ ["bad"] :: []) =
      ([["1", "1", "a", "1", "b", "2", "c", "3", "d", "4"]].filterMap parseRow, false) ∧
    (loadFromFile initState badLoadText).entries =
      initState.entries ++ (parseRows ((csvParse badLoadText).drop 1)).1 :=
  ⟨load_stops_at_first_bad_row.1 [["1", "1", "a", "1", "b", "2", "c", "3", "d", "4"]]
      ["bad"] [] (by decide) (by decide),
   (load_stops_at_first_bad_row.2 initState badLoadText (by decide) (by decide)).1⟩

/-- The mapping file and entries file of the C4 scenario. -/
def c4MapRows : List (List String) := [["Player_Number", "Player_Name"], ["7", "Alice"]]

/-- Entries file with one entry whose first player is the raw identifier
"7". -/
def c4Csv : String :=
  "Table,Round,Player_Number1,Points1,Player_Number2,Points2,Player_Number3,Points3,Player_Number4,Points4\n1,1,7,10,8,0,9,0,10,0"

/-- C4 divergence (code bug): after startup loads a mapping file pairing
7 with "Alice", the UI slots hold the pair, but `_load_mapping_from_file`
never writes `self.mapping`, so the ranking resolves "7" to "7" rather
than "Alice".  The final conjunct shows resolution would have produced
"Alice" had the loaded pair reached the mapping dict. -/
theorem mapping_load_not_used_by_rank :
    (startup c4MapRows c4Csv).mappingEdits.head? = some ("7", "Alice") ∧
    (startup c4MapRows c4Csv).mapping = [] ∧
    (sumAndRank true (startup c4MapRows c4Csv)).stdoutLog =
      ["Rank,Player_Number,Player_Name,Total Points\n1,7,7,10\n2,10,10,0\n3,8,8,0\n4,9,9,0"] ∧
    resolveName [((7 : Int), "Alice")] "7" = "Alice" := by
  exact ⟨by decide, by decide, by decide, by decide⟩

/-- Entries file storing a table number 0 and round number 0. -/
def c6Csv : String :=
  "Table,Round,Player_Number1,Points1,Player_Number2,Points2,Player_Number3,Points3,Player_Number4,Points4\n0,0,a,1,b,2,c,3,d,4"

/-- C6 counterexample: startup deserialization stores an entry with table
number 0 and round number 0, refuting "no operation can store an entry
with table 0 or a negative table or round". -/
theorem store_nonpositive_table_cex :
    (startup [] c6Csv).entries.map Entry.table = [0] ∧
    (startup [] c6Csv).entries.map Entry.round = [0] ∧
    (startup [] c6Csv).entries ≠ [] := by
  exact ⟨by decide, by decide, by decide⟩

/-- C6 amended: entries stored through submit or change have a
non-negative table number (the digits-only parse admits 0) and, whenever
the round input is at least 1 (the UI spinbox range is 1..1000), a
positive round; startup deserialization validates nothing. -/
theorem submit_change_table_nonneg (s : AppState) (inp : FormInput)
    (h : 1 ≤ inp.round) :
    (∀ e ∈ (onSubmit inp s).entries, e ∈ s.entries ∨ (0 ≤ e.table ∧ 1 ≤ e.round)) ∧
    (∀ e ∈ (onChange inp s).entries, e ∈ s.entries ∨ (0 ≤ e.table ∧ 1 ≤ e.round)) := by
  have hentry : 0 ≤ (entryOfInput inp).table ∧ 1 ≤ (entryOfInput inp).round := by
    refine ⟨Int.natCast_nonneg _, h⟩
  constructor
  · intro e he
    unfold onSubmit at he
    split at he
    · exact Or.inl he
    · split at he
      · exact Or.inl he
      · rw [saveToFile_entries] at he
        simp only [List.mem_append, List.mem_singleton] at he
        rcases he with he | he
        · exact Or.inl he
        · exact Or.inr (he ▸ hentry)
  · intro e he
    unfold onChange at he
    split at he
    · exact Or.inl he
    · split at he
      · exact Or.inl he
      · split at he
        · exact Or.inl he
        · rw [saveToFile_entries] at he
          simp only [pySet] at he
          split at he
          · rcases List.mem_or_eq_of_mem_set he with h' | h'
            · exact Or.inl h'
            · exact Or.inr (h' ▸ hentry)
          · rcases List.mem_or_eq_of_mem_set he with h' | h'
            · exact Or.inl h'
            · exact Or.inr (h' ▸ hentry)

/-- Witness for the C6 amended theorem at a concrete submit and the
concrete entry it appends. -/
theorem submit_change_table_nonneg_witness :
    entryOfInput ⟨"0", 1, [("5", 1), ("6", 2), ("7", 3), ("8", 4)]⟩ ∈ initState.entries ∨
      (0 ≤ (entryOfInput ⟨"0", 1, [("5", 1), ("6", 2), ("7", 3), ("8", 4)]⟩).table ∧
       1 ≤ (entryOfInput ⟨"0", 1, [("5", 1), ("6", 2), ("7", 3), ("8", 4)]⟩).round) :=
  (submit_change_table_nonneg initState ⟨"0", 1, [("5", 1), ("6", 2), ("7", 3), ("8", 4)]⟩
    (by decide)).1
    (entryOfInput ⟨"0", 1, [("5", 1), ("6", 2), ("7", 3), ("8", 4)]⟩) (by decide)

/-- A concrete one-entry store for the ranking write-failure scenario. -/
def c7State : AppState :=
  { initState with
      entries := [⟨1, 1, [⟨"7", 10⟩, ⟨"8", 0⟩, ⟨"9", 0⟩, ⟨"10", 0⟩]⟩]
      current_index := 0 }

/-- C7 counterexample: when the ranking write fails, the status the caller
ends up observing is the unconditional success message, not the write
error - the error report is set and then overwritten. -/
theorem rank_write_failure_status_cex :
    (sumAndRank false c7State).statusLog.getLast? =
      some "Ranking generated – see console / ranking.csv." ∧
    (sumAndRank false c7State).statusLog.getLast? ≠
      some "Could not write ranking.csv: <error>" := by
  exact ⟨by decide, by decide⟩

/-- C7 amended: on a write failure the computed ranking is still printed
(the stdout output is identical to the successful-write run and carries the
computed ranking), and the write-error message is set on the status label
but then unconditionally overwritten by the success message, which is what
the caller finally observes. -/
theorem rank_output_survives_write_failure (s : AppState) (wOk : Bool)
    (h : s.entries ≠ []) :
    (sumAndRank false s).stdoutLog = (sumAndRank wOk s).stdoutLog ∧
    (sumAndRank false s).stdoutLog = s.stdoutLog ++ [rankingCsvOf s] ∧
    "Could not write ranking.csv: <error>" ∈ (sumAndRank false s).statusLog ∧
    (sumAndRank false s).statusLog.getLast? =
      some "Ranking generated – see console / ranking.csv." := by
  have hne : ¬(s.entries.isEmpty = true) := by simp [List.isEmpty_iff, h]
  unfold sumAndRank
  rw [if_neg hne, if_neg hne]
  cases wOk <;>
    refine ⟨rfl, rfl, by simp, ?_⟩ <;>
    · show ((s.statusLog ++ _) ++ _).getLast? = _
      rw [List.getLast?_concat]

theorem pySet_length (l : List Entry) (i : Int) (x : Entry) :
    (pySet l i x).length = l.length := by
  unfold pySet; split <;> simp [List.length_set]

theorem inv_of_fields (t : AppState) (es : List Entry) (i : Int)
    (he : t.entries = es) (hi : t.current_index = i)
    (h : (i = -1 ↔ es = []) ∧ (es ≠ [] → 0 ≤ i ∧ i < (es.length : Int))) : Inv t := by
  unfold Inv; rw [he, hi]; exact h

/-- C5: the cursor invariant holds after startup (for any mapping file and
any entries file contents) and is preserved by submit, change,
navigate-previous, navigate-next and delete. -/
theorem cursor_invariant :
    (∀ (mapRows : List (List String)) (csvText : String), Inv (startup mapRows csvText)) ∧
    (∀ (op : Op) (s : AppState), Inv s → Inv (step op s)) := by
  constructor
  · intro mapRows csvText
    unfold startup
    have hidx :
        (loadFromFile (loadMappingFromFile mapRows initState) csvText).current_index = -1 := by
      unfold loadFromFile loadMappingFromFile initState
      dsimp only
      split
      · rfl
      · split <;> rfl
    by_cases he : (loadFromFile (loadMappingFromFile mapRows initState) csvText).entries.isEmpty
    · rw [if_pos he]
      refine inv_of_fields _ _ _ rfl hidx ⟨?_, ?_⟩
      · simp [List.isEmpty_iff.mp he]
      · intro hne; exact absurd (List.isEmpty_iff.mp he) hne
    · rw [if_neg he]
      have hne : (loadFromFile (loadMappingFromFile mapRows initState) csvText).entries ≠ [] := by
        simpa [List.isEmpty_iff] using he
      refine inv_of_fields _ _ 0 rfl rfl ⟨?_, ?_⟩
      · simp [hne]
      · intro _
        exact ⟨le_refl 0, by exact_mod_cast List.length_pos.mpr hne⟩
  · intro op s h
    obtain ⟨hiff, hbnd⟩ := h
    cases op with
    | submit inp =>
      show Inv (onSubmit inp s)
      unfold onSubmit
      split
      · exact ⟨hiff, hbnd⟩
      split
      · exact ⟨hiff, hbnd⟩
      refine inv_of_fields _ (s.entries ++ [entryOfInput inp])
        (((s.entries ++ [entryOfInput inp]).length : Int) - 1)
        (saveToFile_entries _) (saveToFile_current_index _) ⟨?_, ?_⟩
      · rw [← List.length_eq_zero]
        simp only [List.length_append, List.length_singleton]
        omega
      · intro _
        simp only [List.length_append, List.length_singleton]
        omega
    | change inp =>
      show Inv (onChange inp s)
      unfold onChange
      split
      · exact ⟨hiff, hbnd⟩
      case isFalse hguard =>
      split
      · exact ⟨hiff, hbnd⟩
      split
      · exact ⟨hiff, hbnd⟩
      have hne : s.entries ≠ [] := fun h0 => hguard (hiff.mpr h0)
      have hb := hbnd hne
      refine inv_of_fields _ (pySet s.entries s.current_index (entryOfInput inp))
        s.current_index (saveToFile_entries _) (saveToFile_current_index _) ⟨?_, ?_⟩
      · constructor
        · intro h0; exact absurd h0 hguard
        · intro h0
          exfalso
          have := congrArg List.length h0
          rw [pySet_length] at this
          exact hne (List.length_eq_zero.mp this)
      · intro _; rw [pySet_length]; exact hb
    | prev =>
      show Inv (showPrevious s)
      unfold showPrevious
      split
      · exact ⟨hiff, hbnd⟩
      case isFalse hg1 =>
      split
      · exact ⟨hiff, hbnd⟩
      case isFalse hg2 =>
      have hne : s.entries ≠ [] := by simpa [List.isEmpty_iff] using hg1
      have hb := hbnd hne
      refine inv_of_fields _ s.entries (s.current_index - 1)
        (saveToFile_entries _) (saveToFile_current_index _) ⟨?_, ?_⟩
      · constructor
        · intro h0; exfalso; omega
        · intro h0; exact absurd h0 hne
      · intro _; omega
    | next =>
      show Inv (showNext s)
      unfold showNext
      split
      · exact ⟨hiff, hbnd⟩
      case isFalse hg1 =>
      split
      · exact ⟨hiff, hbnd⟩
      case isFalse hg2 =>
      have hne : s.entries ≠ [] := by simpa [List.isEmpty_iff] using hg1
      have hb := hbnd hne
      refine inv_of_fields _ s.entries (s.current_index + 1)
        (saveToFile_entries _) (saveToFile_current_index _) ⟨?_, ?_⟩
      · constructor
        · intro h0; exfalso; omega
        · intro h0; exact absurd h0 hne
      · intro _; omega
    | deleteCur c =>
      show Inv (deleteCurrent c s)
      unfold deleteCurrent
      split
      · exact ⟨hiff, hbnd⟩
      case isFalse hg1 =>
      split
      · exact ⟨hiff, hbnd⟩
      have hne : s.entries ≠ [] := by simpa [List.isEmpty_iff] using hg1
      have hb := hbnd hne
      have hdel : pyDelete s.entries s.current_index =
          s.entries.eraseIdx s.current_index.toNat := by
        unfold pyDelete; rw [if_neg (by omega)]
      have hlt : s.current_index.toNat < s.entries.length := by omega
      have hlen : (pyDelete s.entries s.current_index).length = s.entries.length - 1 := by
        rw [hdel, List.length_eraseIdx, if_pos hlt]
      dsimp only
      split
      case isTrue hempty =>
        refine inv_of_fields _ (pyDelete s.entries s.current_index) (-1)
          (saveToFile_entries _) (saveToFile_current_index _) ⟨?_, ?_⟩
        · simp [List.isEmpty_iff.mp hempty]
        · intro h0; exact absurd (List.isEmpty_iff.mp hempty) h0
      case isFalse hnemp =>
      have hne' : pyDelete s.entries s.current_index ≠ [] := by
        simpa [List.isEmpty_iff] using hnemp
      have hpos : 0 < (pyDelete s.entries s.current_index).length :=
        List.length_pos.mpr hne'
      split
      · refine inv_of_fields _ (pyDelete s.entries s.current_index)
          (((pyDelete s.entries s.current_index).length : Int) - 1)
          (saveToFile_entries _) (saveToFile_current_index _) ⟨?_, ?_⟩
        · constructor
          · intro h0; exfalso; omega
          · intro h0; exact absurd h0 hne'
        · intro _; constructor <;> omega
      · refine inv_of_fields _ (pyDelete s.entries s.current_index) s.current_index
          (saveToFile_entries _) (saveToFile_current_index _) ⟨?_, ?_⟩
        · constructor
          · intro h0; exfalso; omega
          · intro h0; exact absurd h0 hne'
        · intro _
          constructor
          · omega
          · omega

/-- Witness for the C5 theorem: the invariant holds concretely and is
carried through a concrete delete step. -/
theorem cursor_invariant_witness :
    Inv c7State ∧ Inv (step (Op.deleteCur true) c7State) :=
  ⟨by decide, cursor_invariant.2 (Op.deleteCur true) c7State (by decide)⟩

/-! ## Decimal rendering and parsing round-trip -/

theorem digitChar_isDigit {d : Nat} (h : d < 10) : (Nat.digitChar d).isDigit = true := by
  interval_cases d <;> decide

theorem digitChar_toNat {d : Nat} (h : d < 10) : (Nat.digitChar d).toNat = 48 + d := by
  interval_cases d <;> decide

theorem natDigitsAux_ne_nil :
    ∀ (fuel n : Nat), n < fuel → natDigitsAux fuel n ≠ [] := by
  intro fuel
  induction fuel with
  | zero => intro n h; omega
  | succ fuel _ =>
    intro n _
    unfold natDigitsAux
    split
    · simp
    · simp

theorem natDigitsAux_all_digit :
    ∀ (fuel n : Nat), n < fuel → ∀ c ∈ natDigitsAux fuel n, c.isDigit = true := by
  intro fuel
  induction fuel with
  | zero => intro n h; omega
  | succ fuel ih =>
    intro n hn c hc
    unfold natDigitsAux at hc
    split at hc
    · rw [List.mem_singleton.mp hc]
      exact digitChar_isDigit (by omega)
    · rcases List.mem_append.mp hc with h | h
      · exact ih (n / 10) (by omega) c h
      · rw [List.mem_singleton.mp h]
        exact digitChar_isDigit (by omega)

theorem strVal_append_digit (l : List Char) (c : Char) :
    strVal (l ++ [c]) = 10 * strVal l + (c.toNat - 48) := by
  unfold strVal
  rw [List.foldl_append]
  rfl

theorem strVal_natDigitsAux :
    ∀ (fuel n : Nat), n < fuel → strVal (natDigitsAux fuel n) = n := by
  intro fuel
  induction fuel with
  | zero => intro n h; omega
  | succ fuel ih =>
    intro n hn
    unfold natDigitsAux
    split
    case isTrue h =>
      show strVal [Nat.digitChar n] = n
      have : strVal [Nat.digitChar n] = 10 * 0 + ((Nat.digitChar n).toNat - 48) := rfl
      rw [this, digitChar_toNat h]
      omega
    case isFalse h =>
      rw [strVal_append_digit, ih (n / 10) (by omega), digitChar_toNat (by omega)]
      omega

theorem natStr_all_digit (n : Nat) : ∀ c ∈ (natStr n).data, c.isDigit = true :=
  natDigitsAux_all_digit (n + 1) n (by omega)

theorem natStr_ne_nil (n : Nat) : (natStr n).data ≠ [] :=
  natDigitsAux_ne_nil (n + 1) n (by omega)

theorem strVal_natStr (n : Nat) : strVal (natStr n).data = n :=
  strVal_natDigitsAux (n + 1) n (by omega)

theorem ws_not_digit {c : Char} (h : c.isWhitespace = true) : c.isDigit = false := by
  unfold Char.isWhitespace at h
  simp only [Bool.or_eq_true, decide_eq_true_eq] at h
  rcases h with ((h | h) | h) | h <;> subst h <;> decide

theorem digit_not_ws {c : Char} (h : c.isDigit = true) : c.isWhitespace = false := by
  cases hw : c.isWhitespace
  · rfl
  · rw [ws_not_digit hw] at h; cases h

theorem digit_ne {c d : Char} (h : c.isDigit = true) (hd : d.isDigit = false) : c ≠ d :=
  fun he => by subst he; rw [h] at hd; cases hd

theorem dropWhile_eq_self_of_false {p : Char → Bool} :
    ∀ (l : List Char), (∀ c ∈ l, p c = false) → l.dropWhile p = l := by
  intro l h
  cases l with
  | nil => rfl
  | cons c cs =>
    rw [List.dropWhile_cons, h c (by simp)]
    simp

theorem pyStrip_of_no_ws {s : String} (h : ∀ c ∈ s.data, c.isWhitespace = false) :
    pyStrip s = s := by
  unfold pyStrip
  rw [dropWhile_eq_self_of_false _ h,
      dropWhile_eq_self_of_false _ (fun c hc => h c (List.mem_reverse.mp hc)),
      List.reverse_reverse]

/-- Characters of `pyStr i` are decimal digits, possibly after a leading
minus sign. -/
theorem pyStr_chars (i : Int) : ∀ c ∈ (pyStr i).data, c.isDigit = true ∨ c = '-' := by
  intro c hc
  unfold pyStr at hc
  split at hc
  · rw [data_append] at hc
    rcases List.mem_append.mp hc with h | h
    · right; simpa using h
    · left; exact natStr_all_digit _ c h
  · left; exact natStr_all_digit _ c hc

theorem pyStr_no_ws (i : Int) : ∀ c ∈ (pyStr i).data, c.isWhitespace = false := by
  intro c hc
  rcases pyStr_chars i c hc with h | h
  · exact digit_not_ws h
  · subst h; rfl

/-- Round-trip of the integer rendering through Python `int`. -/
theorem pyInt_pyStr (i : Int) : pyInt? (pyStr i) = some i := by
  unfold pyInt?
  rw [pyStrip_of_no_ws (pyStr_no_ws i)]
  by_cases hneg : i < 0
  · have hdata : (pyStr i).data = '-' :: (natStr i.natAbs).data := by
      unfold pyStr
      rw [if_pos hneg, data_append]
      rfl
    rw [hdata]
    have hne : (natStr i.natAbs).data.isEmpty = false := by
      cases h : (natStr i.natAbs).data
      · exact absurd h (natStr_ne_nil _)
      · rfl
    have hall : (natStr i.natAbs).data.all Char.isDigit = true :=
      List.all_eq_true.mpr (natStr_all_digit _)
    show (if ('-' : Char) = '-' then
        if (!(natStr i.natAbs).data.isEmpty && (natStr i.natAbs).data.all Char.isDigit) = true
        then some (-(strVal (natStr i.natAbs).data : Int)) else none
      else if ('-' : Char) = '+' then
        if (!(natStr i.natAbs).data.isEmpty && (natStr i.natAbs).data.all Char.isDigit) = true
        then some ((strVal (natStr i.natAbs).data : Int)) else none
      else if ('-' :: (natStr i.natAbs).data).all Char.isDigit = true
        then some ((strVal ('-' :: (natStr i.natAbs).data) : Int)) else none) = some i
    rw [if_pos rfl, hne, hall]
    show some (-(strVal (natStr i.natAbs).data : Int)) = some i
    rw [strVal_natStr]
    congr 1
    omega
  · have hdata : (pyStr i).data = (natStr i.toNat).data := by
      unfold pyStr
      rw [if_neg hneg]
    rw [hdata]
    obtain ⟨c, rest, hcr⟩ : ∃ c rest, (natStr i.toNat).data = c :: rest := by
      cases h : (natStr i.toNat).data
      · exact absurd h (natStr_ne_nil _)
      · exact ⟨_, _, rfl⟩
    rw [hcr]
    have hcd : c.isDigit = true := by
      have := natStr_all_digit i.toNat c (by rw [hcr]; simp)
      exact this
    have hall : (c :: rest).all Char.isDigit = true := by
      rw [← hcr]
      exact List.all_eq_true.mpr (natStr_all_digit _)
    show (if c = '-' then
        if (!rest.isEmpty && rest.all Char.isDigit) = true
        then some (-(strVal rest : Int)) else none
      else if c = '+' then
        if (!rest.isEmpty && rest.all Char.isDigit) = true
        then some ((strVal rest : Int)) else none
      else if (c :: rest).all Char.isDigit = true
        then some ((strVal (c :: rest) : Int)) else none) = some i
    rw [if_neg (digit_ne hcd (by decide) : c ≠ '-'), if_neg (digit_ne hcd (by decide) : c ≠ '+'),
        if_pos hall]
    show some ((strVal (c :: rest) : Int)) = some i
    rw [← hcr, strVal_natStr]
    congr 1
    omega

/-! ## Splitting undoes joining -/

theorem mk_data : ∀ (t : String), (⟨t.data⟩ : String) = t
  | ⟨_⟩ => rfl

theorem splitOnChar_ne_nil (sep : Char) : ∀ (cs : List Char), splitOnChar sep cs ≠ [] := by
  intro cs
  induction cs with
  | nil => simp [splitOnChar]
  | cons c cs ih =>
    cases h : splitOnChar sep cs with
    | nil => exact absurd h ih
    | cons g gs =>
      show (match splitOnChar sep cs with
        | [] => [[]]
        | g :: gs => if c = sep then [] :: g :: gs else (c :: g) :: gs) ≠ []
      rw [h]
      dsimp only
      split <;> simp

theorem splitOnChar_no_sep (sep : Char) :
    ∀ (cs : List Char), (∀ c ∈ cs, c ≠ sep) → splitOnChar sep cs = [cs] := by
  intro cs
  induction cs with
  | nil => intro _; rfl
  | cons c cs ih =>
    intro h
    show (match splitOnChar sep cs with
      | [] => [[]]
      | g :: gs => if c = sep then [] :: g :: gs else (c :: g) :: gs) = [c :: cs]
    rw [ih (fun u hu => h u (by simp [hu]))]
    dsimp only
    rw [if_neg (h c (by simp))]

theorem splitOnChar_sep_cons (sep : Char) (r : List Char) :
    splitOnChar sep (sep :: r) = [] :: splitOnChar sep r := by
  show (match splitOnChar sep r with
    | [] => [[]]
    | g :: gs => if sep = sep then [] :: g :: gs else (sep :: g) :: gs)
      = [] :: splitOnChar sep r
  cases h : splitOnChar sep r with
  | nil => exact absurd h (splitOnChar_ne_nil sep r)
  | cons g gs => simp

theorem splitOnChar_append (sep : Char) :
    ∀ (xs ys g : List Char) (gs : List (List Char)),
      (∀ c ∈ xs, c ≠ sep) → splitOnChar sep ys = g :: gs →
      splitOnChar sep (xs ++ ys) = (xs ++ g) :: gs := by
  intro xs
  induction xs with
  | nil =>
    intro ys g gs _ hy
    simpa using hy
  | cons x xs ih =>
    intro ys g gs hx hy
    have ih' := ih ys g gs (fun c hc => hx c (by simp [hc])) hy
    show (match splitOnChar sep (xs ++ ys) with
      | [] => [[]]
      | g :: gs => if x = sep then [] :: g :: gs else (x :: g) :: gs)
        = ((x :: xs) ++ g) :: gs
    rw [ih']
    dsimp only
    rw [if_neg (hx x (by simp))]
    simp

theorem splitOnChar_joinStr (sep : Char) :
    ∀ (ss : List String), ss ≠ [] →
      (∀ t ∈ ss, ∀ c ∈ t.data, c ≠ sep) →
      splitOnChar sep (joinStr sep ss).data = ss.map String.data := by
  intro ss
  induction ss with
  | nil => intro h; exact absurd rfl h
  | cons s ss ih =>
    intro _ h
    cases ss with
    | nil =>
      show splitOnChar sep s.data = [s.data]
      exact splitOnChar_no_sep sep s.data (h s (by simp))
    | cons t rest =>
      have hdata : (joinStr sep (s :: t :: rest)).data
          = s.data ++ (sep :: (joinStr sep (t :: rest)).data) := by
        rw [joinStr_cons_cons, data_append, data_append]
        simp
      rw [hdata]
      have hy : splitOnChar sep (sep :: (joinStr sep (t :: rest)).data)
          = [] :: ((t :: rest).map String.data) := by
        rw [splitOnChar_sep_cons, ih (by simp) (fun u hu => h u (by simp [hu]))]
      rw [splitOnChar_append sep s.data _ _ _ (h s (by simp)) hy]
      simp

/-- Every character of a join is the separator or a character of one of
the joined strings. -/
theorem joinStr_chars (sep : Char) :
    ∀ (ss : List String) (c : Char), c ∈ (joinStr sep ss).data →
      c = sep ∨ ∃ t ∈ ss, c ∈ t.data := by
  intro ss
  induction ss with
  | nil => intro c hc; cases hc
  | cons s ss ih =>
    intro c hc
    cases ss with
    | nil => exact Or.inr ⟨s, by simp, hc⟩
    | cons t rest =>
      rw [joinStr_cons_cons, data_append, data_append] at hc
      rcases List.mem_append.mp hc with hc | hc
      · rcases List.mem_append.mp hc with hc | hc
        · exact Or.inr ⟨s, by simp, hc⟩
        · exact Or.inl (by simpa using hc)
      · rcases ih c hc with h | ⟨u, hu, hcu⟩
        · exact Or.inl h
        · exact Or.inr ⟨u, by simp [hu], hcu⟩

theorem csvParse_joinStr (lines : List String) (hne : lines ≠ [])
    (h : ∀ t ∈ lines, ∀ c ∈ t.data, c ≠ '\n') :
    csvParse (joinStr '\n' lines) =
      lines.map (fun l => (splitOnChar ',' l.data).map (fun f => (⟨f⟩ : String))) := by
  unfold csvParse
  rw [splitOnChar_joinStr '\n' lines hne h, List.map_map]
  rfl

/-! ## Round-trip of well-formed entries -/

/-- Raw identifiers that survive the unquoted CSV format: non-empty, no
delimiter, no quote, no line terminator. -/
def goodName (s : String) : Prop :=
  s ≠ "" ∧ ∀ c ∈ s.data, c ≠ ',' ∧ c ≠ '\n' ∧ c ≠ '\x0d' ∧ c ≠ '\"'

instance (s : String) : Decidable (goodName s) := by
  unfold goodName; infer_instance

/-- An entry as valid submits create them: exactly 4 people, each with a
well-formed name. -/
def goodEntry (e : Entry) : Prop :=
  e.people.length = 4 ∧ ∀ p ∈ e.people, goodName p.name

instance (e : Entry) : Decidable (goodEntry e) := by
  unfold goodEntry; infer_instance

/-- A form input submit accepts, with names that survive the CSV format. -/
def validInput (inp : FormInput) : Prop :=
  pyIsdigit (pyStrip inp.tableText) = true ∧ inp.players.length = 4 ∧
  ∀ pr ∈ inp.players, goodName (pyStrip pr.1)

instance (inp : FormInput) : Decidable (validInput inp) := by
  unfold validInput; infer_instance

theorem pyStr_field_ok (i : Int) : ∀ c ∈ (pyStr i).data, c ≠ ',' ∧ c ≠ '\n' := by
  intro c hc
  rcases pyStr_chars i c hc with h | h
  · exact ⟨digit_ne h (by decide), digit_ne h (by decide)⟩
  · subst h; exact ⟨by decide, by decide⟩

theorem len4_cases {α : Type} : ∀ (l : List α), l.length = 4 → ∃ a b c d, l = [a, b, c, d] := by
  intro l h
  match l, h with
  | [a, b, c, d], _ => exact ⟨a, b, c, d, rfl⟩

theorem fields_of_entryRow (e : Entry) (a b c d : Person) (hp : e.people = [a, b, c, d]) :
    entryRow e = joinStr ','
      [pyStr e.table, pyStr e.round, a.name, pyStr a.points, b.name, pyStr b.points,
       c.name, pyStr c.points, d.name, pyStr d.points] := by
  unfold entryRow
  rw [hp]
  rfl

theorem parseRow_entryFields (e : Entry) (a b c d : Person) (hp : e.people = [a, b, c, d]) :
    parseRow [pyStr e.table, pyStr e.round, a.name, pyStr a.points, b.name, pyStr b.points,
      c.name, pyStr c.points, d.name, pyStr d.points] = some e := by
  unfold parseRow
  simp only [pyInt_pyStr]
  show some ({ table := e.table, round := e.round, people := [a, b, c, d] } : Entry) = some e
  rw [← hp]

theorem parseRows_map (f : Entry → List String) :
    ∀ (es : List Entry), (∀ e ∈ es, parseRow (f e) = some e) →
      parseRows (es.map f) = (es, true) := by
  intro es
  induction es with
  | nil => intro _; rfl
  | cons e es ih =>
    intro h
    show parseRows (f e :: es.map f) = (e :: es, true)
    unfold parseRows
    rw [h e (by simp), ih (fun u hu => h u (by simp [hu]))]

/-- One well-formed entry row splits back into its ten fields. -/
theorem splitFields_entryRow (e : Entry) (a b c d : Person)
    (hp : e.people = [a, b, c, d]) (hg : goodEntry e) :
    (splitOnChar ',' (entryRow e).data).map (fun f => (⟨f⟩ : String)) =
      [pyStr e.table, pyStr e.round, a.name, pyStr a.points, b.name, pyStr b.points,
       c.name, pyStr c.points, d.name, pyStr d.points] := by
  have hnames : ∀ p ∈ e.people, ∀ c ∈ p.name.data, c ≠ ',' := by
    intro p hpmem c hc
    exact ((hg.2 p hpmem).2 c hc).1
  have hsplit : splitOnChar ',' (entryRow e).data =
      ([pyStr e.table, pyStr e.round, a.name, pyStr a.points, b.name, pyStr b.points,
        c.name, pyStr c.points, d.name, pyStr d.points]).map String.data := by
    rw [fields_of_entryRow e a b c d hp]
    apply splitOnChar_joinStr
    · simp
    · intro t ht ch hch
      simp only [List.mem_cons, List.not_mem_nil, or_false] at ht
      rcases ht with h | h | h | h | h | h | h | h | h | h <;> subst h
      · exact (pyStr_field_ok _ ch hch).1
      · exact (pyStr_field_ok _ ch hch).1
      · exact hnames a (by rw [hp]; simp) ch hch
      · exact (pyStr_field_ok _ ch hch).1
      · exact hnames b (by rw [hp]; simp) ch hch
      · exact (pyStr_field_ok _ ch hch).1
      · exact hnames c (by rw [hp]; simp) ch hch
      · exact (pyStr_field_ok _ ch hch).1
      · exact hnames d (by rw [hp]; simp) ch hch
      · exact (pyStr_field_ok _ ch hch).1
  rw [hsplit, List.map_map]
  have : (fun t : String => (⟨t.data⟩ : String)) = id := funext fun t => mk_data t
  show List.map ((fun f => (⟨f⟩ : String)) ∘ String.data) _ = _
  rw [show ((fun f => (⟨f⟩ : String)) ∘ String.data) = (fun t : String => (⟨t.data⟩ : String))
      from rfl, this, List.map_id]

/-- No character of a well-formed entry row is a newline. -/
theorem entryRow_no_newline (e : Entry) (hg : goodEntry e) :
    ∀ ch ∈ (entryRow e).data, ch ≠ '\n' := by
  obtain ⟨a, b, c, d, hp⟩ := len4_cases e.people hg.1
  intro ch hch
  rw [fields_of_entryRow e a b c d hp] at hch
  rcases joinStr_chars ',' _ ch hch with h | ⟨t, ht, hct⟩
  · subst h; decide
  · simp only [List.mem_cons, List.not_mem_nil, or_false] at ht
    have hnames : ∀ p ∈ e.people, ∀ c ∈ p.name.data, c ≠ '\n' := by
      intro p hpmem c hc
      exact ((hg.2 p hpmem).2 c hc).2.1
    rcases ht with h | h | h | h | h | h | h | h | h | h <;> subst h
    · exact (pyStr_field_ok _ ch hct).2
    · exact (pyStr_field_ok _ ch hct).2
    · exact hnames a (by rw [hp]; simp) ch hct
    · exact (pyStr_field_ok _ ch hct).2
    · exact hnames b (by rw [hp]; simp) ch hct
    · exact (pyStr_field_ok _ ch hct).2
    · exact hnames c (by rw [hp]; simp) ch hct
    · exact (pyStr_field_ok _ ch hct).2
    · exact hnames d (by rw [hp]; simp) ch hct
    · exact (pyStr_field_ok _ ch hct).2

/-- Entry-level round trip: deserializing the serialization of a list of
well-formed entries into a fresh store reproduces the list exactly. -/
theorem roundtrip_entries (es : List Entry) (h : ∀ e ∈ es, goodEntry e) :
    (loadFromFile initState (entriesToCsv es)).entries = es := by
  cases es with
  | nil => rfl
  | cons e0 rest =>
    have hlines : ∀ t ∈ csvHeader :: (e0 :: rest).map entryRow, ∀ c ∈ t.data, c ≠ '\n' := by
      intro t ht c hc
      rcases List.mem_cons.mp ht with h' | h'
      · subst h'
        revert hc
        revert c
        decide
      · obtain ⟨e, he, rfl⟩ := List.mem_map.mp h'
        exact entryRow_no_newline e (h e he) c hc
    have hparse : csvParse (entriesToCsv (e0 :: rest)) =
        (csvHeader :: (e0 :: rest).map entryRow).map
          (fun l => (splitOnChar ',' l.data).map (fun f => (⟨f⟩ : String))) := by
      unfold entriesToCsv
      exact csvParse_joinStr _ (by simp) hlines
    have hrowparse : ∀ e ∈ e0 :: rest,
        parseRow ((splitOnChar ',' (entryRow e).data).map (fun f => (⟨f⟩ : String)))
          = some e := by
      intro e he
      obtain ⟨a, b, c, d, hp⟩ := len4_cases e.people (h e he).1
      rw [splitFields_entryRow e a b c d hp (h e he)]
      exact parseRow_entryFields e a b c d hp
    have hrows : ((e0 :: rest).map entryRow).map
        (fun l => (splitOnChar ',' l.data).map (fun f => (⟨f⟩ : String)))
        = (e0 :: rest).map
            (fun e => (splitOnChar ',' (entryRow e).data).map (fun f => (⟨f⟩ : String))) := by
      rw [List.map_map]
      rfl
    have hdrop : List.drop 1
        (List.map (fun l => (splitOnChar ',' l.data).map (fun f => (⟨f⟩ : String)))
          (csvHeader :: List.map entryRow (e0 :: rest)))
        = List.map (fun l => (splitOnChar ',' l.data).map (fun f => (⟨f⟩ : String)))
            (List.map entryRow (e0 :: rest)) := rfl
    unfold loadFromFile
    rw [hparse]
    rw [if_neg (by simp only [List.length_map, List.length_cons]; omega)]
    rw [hdrop, hrows, parseRows_map _ _ hrowparse]
    simp [initState]

/-! ## Valid submits append well-formed entries -/

theorem onSubmit_entries_cases (inp : FormInput) (s : AppState) :
    (onSubmit inp s).entries = s.entries ∨
    (onSubmit inp s).entries = s.entries ++ [entryOfInput inp] := by
  unfold onSubmit
  split
  · exact Or.inl rfl
  split
  · exact Or.inl rfl
  · exact Or.inr (saveToFile_entries _)

theorem goodEntry_entryOfInput (inp : FormInput) (h : validInput inp) :
    goodEntry (entryOfInput inp) := by
  constructor
  · show (inp.players.map _).length = 4
    rw [List.length_map]
    exact h.2.1
  · intro p hp
    obtain ⟨pr, hpr, rfl⟩ := List.mem_map.mp hp
    exact h.2.2 pr hpr

theorem submit_fold_good :
    ∀ (inps : List FormInput) (s : AppState),
      (∀ inp ∈ inps, validInput inp) → (∀ e ∈ s.entries, goodEntry e) →
      ∀ e ∈ (inps.foldl (fun st inp => onSubmit inp st) s).entries, goodEntry e := by
  intro inps
  induction inps with
  | nil => intro s _ hs; exact hs
  | cons inp inps ih =>
    intro s h hs
    show ∀ e ∈ (inps.foldl (fun st inp => onSubmit inp st) (onSubmit inp s)).entries, goodEntry e
    apply ih (onSubmit inp s) (fun i hi => h i (by simp [hi]))
    intro e he
    rcases onSubmit_entries_cases inp s with hcase | hcase <;> rw [hcase] at he
    · exact hs e he
    · rcases List.mem_append.mp he with h' | h'
      · exact hs e h'
      · rw [List.mem_singleton.mp h']
        exact goodEntry_entryOfInput inp (h inp (by simp))

/-- The concrete submit input of the C3 counterexample: a perfectly valid
submit (non-empty names, digits-only table) whose first raw identifier
contains a comma. -/
def c3Input : FormInput := ⟨"12", 1, [("a,b", 10), ("3", -5), ("9", 0), ("1", 15)]⟩

/-- C3 counterexample: one valid submit whose name contains a comma does
not round-trip: serialization followed by deserialization yields an empty
store rather than the original single entry. -/
theorem roundtrip_comma_name_cex :
    (onSubmit c3Input initState).entries ≠ [] ∧
    (loadFromFile initState (entriesToCsv (onSubmit c3Input initState).entries)).entries
      = [] ∧
    (loadFromFile initState (entriesToCsv (onSubmit c3Input initState).entries)).entries
      ≠ (onSubmit c3Input initState).entries := by
  exact ⟨by decide, by decide, by decide⟩

/-- C3 amended: for every sequence of valid submits whose raw names also
avoid the delimiter characters of the format (comma, double quote, CR,
LF), deserializing the serialized store reproduces the stored entry
sequence exactly, field for field and in order. -/
theorem roundtrip_of_good_names (inps : List FormInput)
    (h : ∀ inp ∈ inps, validInput inp) :
    (loadFromFile initState
        (entriesToCsv ((inps.foldl (fun st inp => onSubmit inp st) initState).entries))).entries
      = (inps.foldl (fun st inp => onSubmit inp st) initState).entries := by
  apply roundtrip_entries
  apply submit_fold_good inps initState h
  intro e he
  cases he

/-- Witness for the C3 amended theorem: a concrete two-submit run. -/
theorem roundtrip_witness :
    (loadFromFile initState
        (entriesToCsv ((([⟨"12", 1, [("7", 10), ("3", -5), ("9", 0), ("1", 15)]⟩,
            ⟨"3", 2, [("Bob", -100), ("3", 100), ("9", 1), ("1", 0)]⟩] : List FormInput).foldl
              (fun st inp => onSubmit inp st) initState).entries))).entries
      = (([⟨"12", 1, [("7", 10), ("3", -5), ("9", 0), ("1", 15)]⟩,
            ⟨"3", 2, [("Bob", -100), ("3", 100), ("9", 1), ("1", 0)]⟩] : List FormInput).foldl
              (fun st inp => onSubmit inp st) initState).entries :=
  roundtrip_of_good_names
    [⟨"12", 1, [("7", 10), ("3", -5), ("9", 0), ("1", 15)]⟩,
     ⟨"3", 2, [("Bob", -100), ("3", 100), ("9", 1), ("1", 0)]⟩]
    (by decide)

/-! ## Ranking: totals are per-raw-name sums -/

/-- All person occurrences across the stored entries, in visit order. -/
def allPersons (es : List Entry) : List Person := es.flatMap Entry.people

/-- The raw stored identifiers, with repetitions. -/
def rawNames (es : List Entry) : List String := (allPersons es).map Person.name

/-- Sum of the points of the occurrences of one raw name. -/
def sumFor (ps : List Person) (n : String) : Int :=
  ((ps.filter (fun p => p.name == n)).map Person.points).sum

/-- The claim-side total: all points recorded under the raw name `n`. -/
def totalPoints (es : List Entry) (n : String) : Int := sumFor (allPersons es) n

/-- Lookup in the totals dict, 0 when absent. -/
def totalsGet : List (String × Int) → String → Int
  | [], _ => 0
  | (k, v) :: rest, n => if k = n then v else totalsGet rest n

/-- One accumulation step. -/
def bumpStep (acc : List (String × Int)) (p : Person) : List (String × Int) :=
  bump acc p.name p.points

theorem totalsGet_bump (acc : List (String × Int)) (nm : String) (pts : Int) (n : String) :
    totalsGet (bump acc nm pts) n = totalsGet acc n + (if n = nm then pts else 0) := by
  induction acc with
  | nil =>
    show totalsGet [(nm, pts)] n = 0 + _
    unfold totalsGet
    by_cases h : nm = n
    · subst h; simp
    · rw [if_neg h, if_neg (fun h' => h h'.symm)]
      rfl
  | cons kv rest ih =>
    obtain ⟨k, v⟩ := kv
    show totalsGet (if k = nm then (k, v + pts) :: rest else (k, v) :: bump rest nm pts) n = _
    by_cases hk : k = nm
    · rw [if_pos hk]
      show (if k = n then v + pts else totalsGet rest n) = _
      by_cases hn : k = n
      · rw [if_pos hn]
        show _ = (if k = n then v else totalsGet rest n) + _
        rw [if_pos hn, if_pos (by rw [← hn, hk])]
      · rw [if_neg hn]
        show _ = (if k = n then v else totalsGet rest n) + _
        rw [if_neg hn, if_neg (fun h' => hn (by rw [hk, ← h']))]
        omega
    · rw [if_neg hk]
      show (if k = n then v else totalsGet (bump rest nm pts) n) = _
      by_cases hn : k = n
      · rw [if_pos hn]
        show _ = (if k = n then v else totalsGet rest n) + _
        rw [if_pos hn, if_neg (fun h' => hk (by rw [hn]; exact h'))]
        omega
      · rw [if_neg hn, ih]
        show _ = (if k = n then v else totalsGet rest n) + _
        rw [if_neg hn]

theorem keys_bump (acc : List (String × Int)) (nm : String) (pts : Int) :
    (bump acc nm pts).map Prod.fst =
      if nm ∈ acc.map Prod.fst then acc.map Prod.fst else acc.map Prod.fst ++ [nm] := by
  induction acc with
  | nil => rfl
  | cons kv rest ih =>
    obtain ⟨k, v⟩ := kv
    show (if k = nm then (k, v + pts) :: rest else (k, v) :: bump rest nm pts).map Prod.fst = _
    by_cases hk : k = nm
    · rw [if_pos hk]
      rw [if_pos (by simp [hk.symm])]
      simp
    · rw [if_neg hk]
      show k :: (bump rest nm pts).map Prod.fst = _
      rw [ih]
      by_cases hmem : nm ∈ rest.map Prod.fst
      · rw [if_pos hmem, if_pos (by simp [hmem])]
        simp
      · rw [if_neg hmem,
            if_neg (by simp only [List.map_cons, List.mem_cons]
                       intro hor
                       rcases hor with h | h
                       · exact hk h.symm
                       · exact hmem h)]
        simp

theorem keys_bump_nodup (acc : List (String × Int)) (nm : String) (pts : Int)
    (h : (acc.map Prod.fst).Nodup) : ((bump acc nm pts).map Prod.fst).Nodup := by
  rw [keys_bump]
  by_cases hmem : nm ∈ acc.map Prod.fst
  · rw [if_pos hmem]; exact h
  · rw [if_neg hmem]
    rw [List.nodup_append]
    exact ⟨h, List.nodup_singleton nm, by simpa using hmem⟩

theorem sumFor_cons (p : Person) (ps : List Person) (n : String) :
    sumFor (p :: ps) n = (if n = p.name then p.points else 0) + sumFor ps n := by
  unfold sumFor
  rw [List.filter_cons]
  by_cases h : p.name = n
  · rw [if_pos (by simpa using h), if_pos h.symm]
    simp
  · rw [if_neg (by simpa using h), if_neg (fun h' => h h'.symm)]
    simp

theorem totalsGet_foldl (ps : List Person) :
    ∀ (acc : List (String × Int)) (n : String),
      totalsGet (ps.foldl bumpStep acc) n = totalsGet acc n + sumFor ps n := by
  induction ps with
  | nil => intro acc n; show totalsGet acc n = totalsGet acc n + 0; omega
  | cons p ps ih =>
    intro acc n
    show totalsGet (ps.foldl bumpStep (bump acc p.name p.points)) n = _
    rw [ih, totalsGet_bump, sumFor_cons]
    omega

theorem keys_foldl_mem (ps : List Person) :
    ∀ (acc : List (String × Int)) (n : String),
      n ∈ (ps.foldl bumpStep acc).map Prod.fst ↔
        n ∈ acc.map Prod.fst ∨ n ∈ ps.map Person.name := by
  induction ps with
  | nil => intro acc n; simp
  | cons p ps ih =>
    intro acc n
    show n ∈ ((ps.foldl bumpStep (bump acc p.name p.points)).map Prod.fst) ↔ _
    rw [ih, keys_bump]
    by_cases hmem : p.name ∈ acc.map Prod.fst
    · rw [if_pos hmem]
      simp only [List.map_cons, List.mem_cons]
      constructor
      · tauto
      · intro h
        rcases h with h | h | h
        · tauto
        · rw [h]; tauto
        · tauto
    · rw [if_neg hmem]
      simp only [List.mem_append, List.mem_singleton, List.map_cons, List.mem_cons]
      tauto

theorem keys_foldl_nodup (ps : List Person) :
    ∀ (acc : List (String × Int)), (acc.map Prod.fst).Nodup →
      ((ps.foldl bumpStep acc).map Prod.fst).Nodup := by
  induction ps with
  | nil => intro acc h; exact h
  | cons p ps ih =>
    intro acc h
    exact ih (bump acc p.name p.points) (keys_bump_nodup acc p.name p.points h)

theorem accumTotals_eq_foldl (es : List Entry) :
    accumTotals es = (allPersons es).foldl bumpStep [] := by
  suffices h : ∀ (acc : List (String × Int)),
      es.foldl accumEntry acc = (allPersons es).foldl bumpStep acc by
    exact h []
  induction es with
  | nil => intro acc; rfl
  | cons e es ih =>
    intro acc
    show es.foldl accumEntry (accumEntry acc e) = _
    rw [ih]
    show _ = (e.people ++ allPersons es).foldl bumpStep acc
    rw [List.foldl_append]
    rfl

theorem totalsGet_accumTotals (es : List Entry) (n : String) :
    totalsGet (accumTotals es) n = totalPoints es n := by
  rw [accumTotals_eq_foldl, totalsGet_foldl]
  show (0 : Int) + sumFor (allPersons es) n = totalPoints es n
  unfold totalPoints
  omega

theorem keys_accumTotals_mem (es : List Entry) (n : String) :
    n ∈ (accumTotals es).map Prod.fst ↔ n ∈ rawNames es := by
  rw [accumTotals_eq_foldl, keys_foldl_mem]
  simp [rawNames]

theorem keys_accumTotals_nodup (es : List Entry) :
    ((accumTotals es).map Prod.fst).Nodup := by
  rw [accumTotals_eq_foldl]
  exact keys_foldl_nodup (allPersons es) [] (by simp)

theorem mem_totals_iff (l : List (String × Int)) (hnd : (l.map Prod.fst).Nodup)
    (n : String) (t : Int) :
    (n, t) ∈ l ↔ n ∈ l.map Prod.fst ∧ totalsGet l n = t := by
  induction l with
  | nil => simp
  | cons kv rest ih =>
    obtain ⟨k, v⟩ := kv
    simp only [List.map_cons, List.nodup_cons] at hnd
    obtain ⟨hk, hrest⟩ := hnd
    rw [List.mem_cons, List.map_cons, List.mem_cons,
        show totalsGet ((k, v) :: rest) n = if k = n then v else totalsGet rest n from rfl]
    constructor
    · rintro (h | h)
      · obtain ⟨h1, h2⟩ := Prod.mk.injEq .. ▸ h
        rw [Prod.mk.injEq] at h
        exact ⟨Or.inl h.1, by rw [if_pos h.1.symm]; exact h.2.symm ▸ rfl⟩
      · have hmem : n ∈ rest.map Prod.fst := List.mem_map_of_mem Prod.fst h
        have hne : k ≠ n := fun he => hk (he ▸ hmem)
        rw [if_neg hne]
        exact ⟨Or.inr hmem, ((ih hrest).mp h).2⟩
    · rintro ⟨hor, hget⟩
      by_cases hkn : k = n
      · rw [if_pos hkn] at hget
        exact Or.inl (by rw [Prod.mk.injEq]; exact ⟨hkn.symm, hget.symm⟩)
      · rw [if_neg hkn] at hget
        rcases hor with h | h
        · exact absurd h.symm hkn
        · exact Or.inr ((ih hrest).mpr ⟨h, hget⟩)

/-! ## Ranking: the sort order -/

theorem charListLt_cons (a b : Char) (as bs : List Char) :
    charListLt (a :: as) (b :: bs) = true ↔ a < b ∨ (a = b ∧ charListLt as bs = true) := by
  show (decide (a < b) || (decide (a = b) && charListLt as bs)) = true ↔ _
  simp [Bool.or_eq_true, Bool.and_eq_true, decide_eq_true_eq]

theorem charListLt_asymm :
    ∀ (as bs : List Char), charListLt as bs = true → charListLt bs as = true → False := by
  intro as
  induction as with
  | nil =>
    intro bs h1 h2
    cases bs with
    | nil => cases h1
    | cons b bs => cases h2
  | cons a as ih =>
    intro bs h1 h2
    cases bs with
    | nil => cases h1
    | cons b bs =>
      rw [charListLt_cons] at h1 h2
      rcases h1 with h1 | ⟨he1, h1⟩
      · rcases h2 with h2 | ⟨he2, h2⟩
        · exact absurd h2 (lt_asymm h1)
        · exact absurd (he2 ▸ h1) (lt_irrefl b)
      · rcases h2 with h2 | ⟨he2, h2⟩
        · exact absurd (he1 ▸ h2) (lt_irrefl b)
        · exact ih bs h1 h2

theorem charListLt_trans :
    ∀ (as bs cs : List Char), charListLt as bs = true → charListLt bs cs = true →
      charListLt as cs = true := by
  intro as
  induction as with
  | nil =>
    intro bs cs h1 h2
    cases bs with
    | nil => cases h1
    | cons b bs =>
      cases cs with
      | nil => cases h2
      | cons c cs => rfl
  | cons a as ih =>
    intro bs cs h1 h2
    cases bs with
    | nil => cases h1
    | cons b bs =>
      cases cs with
      | nil => cases h2
      | cons c cs =>
        rw [charListLt_cons] at h1 h2 ⊢
        rcases h1 with h1 | ⟨he1, h1⟩
        · rcases h2 with h2 | ⟨he2, h2⟩
          · exact Or.inl (lt_trans h1 h2)
          · exact Or.inl (he2 ▸ h1)
        · rcases h2 with h2 | ⟨he2, h2⟩
          · exact Or.inl (he1 ▸ h2)
          · exact Or.inr ⟨he1.trans he2, ih bs cs h1 h2⟩

theorem charListLt_conn :
    ∀ (as bs : List Char), charListLt as bs = false → charListLt bs as = false → as = bs := by
  intro as
  induction as with
  | nil =>
    intro bs h1 _
    cases bs with
    | nil => rfl
    | cons b bs => cases h1
  | cons a as ih =>
    intro bs h1 h2
    cases bs with
    | nil => cases h2
    | cons b bs =>
      have h1' : ¬(a < b ∨ (a = b ∧ charListLt as bs = true)) := by
        rw [← charListLt_cons]; simp [h1]
      have h2' : ¬(b < a ∨ (b = a ∧ charListLt bs as = true)) := by
        rw [← charListLt_cons]; simp [h2]
      push_neg at h1' h2'
      have hab : a = b := le_antisymm h2'.1 h1'.1
      subst hab
      have t1 : charListLt as bs = false := by
        cases h : charListLt as bs
        · rfl
        · exact absurd h (h1'.2 rfl)
      have t2 : charListLt bs as = false := by
        cases h : charListLt bs as
        · rfl
        · exact absurd h (h2'.2 rfl)
      rw [ih bs t1 t2]

theorem rankLeB_total (a b : String × Int) : rankLeB a b = true ∨ rankLeB b a = true := by
  unfold rankLeB
  rcases lt_trichotomy a.2 b.2 with h | h | h
  · right
    simp [h]
  · by_cases hlt : strLtB b.1 a.1 = true
    · right
      have hf : strLtB a.1 b.1 = false := by
        cases hx : strLtB a.1 b.1
        · rfl
        · exact (charListLt_asymm _ _ hlt hx).elim
      simp [h, hf]
    · left
      have hf : strLtB b.1 a.1 = false := by
        cases hx : strLtB b.1 a.1
        · rfl
        · exact absurd hx hlt
      simp [h, hf]
  · left
    simp [h]

theorem rankLeB_trans (a b c : String × Int) (h1 : rankLeB a b = true)
    (h2 : rankLeB b c = true) : rankLeB a c = true := by
  unfold rankLeB at h1 h2 ⊢
  simp only [Bool.or_eq_true, Bool.and_eq_true, decide_eq_true_eq,
    Bool.not_eq_true'] at h1 h2 ⊢
  rcases h1 with h1 | ⟨he1, h1⟩
  · rcases h2 with h2 | ⟨he2, h2⟩
    · exact Or.inl (lt_trans h2 h1)
    · exact Or.inl (he2 ▸ h1)
  · rcases h2 with h2 | ⟨he2, h2⟩
    · exact Or.inl (he1 ▸ h2)
    · refine Or.inr ⟨he1.trans he2, ?_⟩
      unfold strLtB at h1 h2 ⊢
      cases hab : charListLt a.1.data b.1.data
      · have hdat : a.1.data = b.1.data := charListLt_conn _ _ hab h1
        cases hca : charListLt c.1.data a.1.data
        · rfl
        · exfalso
          rw [hdat, h2] at hca
          cases hca
      · cases hca : charListLt c.1.data a.1.data
        · rfl
        · exfalso
          have ht := charListLt_trans _ _ _ hca hab
          rw [h2] at ht
          cases ht

theorem insertRank_perm (x : String × Int) :
    ∀ (l : List (String × Int)), (insertRank x l).Perm (x :: l) := by
  intro l
  induction l with
  | nil => exact List.Perm.refl _
  | cons y ys ih =>
    show (if rankLeB x y then x :: y :: ys else y :: insertRank x ys).Perm (x :: y :: ys)
    split
    · exact List.Perm.refl _
    · exact (List.Perm.cons y ih).trans (List.Perm.swap x y ys)

theorem sortTotals_perm (l : List (String × Int)) : (sortTotals l).Perm l := by
  induction l with
  | nil => exact List.Perm.refl _
  | cons x xs ih =>
    show (insertRank x (sortTotals xs)).Perm (x :: xs)
    exact (insertRank_perm x _).trans (List.Perm.cons x ih)

theorem mem_sortTotals (l : List (String × Int)) (p : String × Int) :
    p ∈ sortTotals l ↔ p ∈ l := (sortTotals_perm l).mem_iff

theorem keys_sortTotals_nodup (l : List (String × Int)) (h : (l.map Prod.fst).Nodup) :
    ((sortTotals l).map Prod.fst).Nodup :=
  ((sortTotals_perm l).map Prod.fst).nodup_iff.mpr h

theorem mem_insertRank (x : String × Int) (l : List (String × Int)) (z : String × Int)
    (h : z ∈ insertRank x l) : z = x ∨ z ∈ l := by
  have := (insertRank_perm x l).mem_iff.mp h
  exact List.mem_cons.mp this

theorem pairwise_insertRank (x : String × Int) (l : List (String × Int))
    (h : l.Pairwise (fun a b => rankLeB a b = true)) :
    (insertRank x l).Pairwise (fun a b => rankLeB a b = true) := by
  induction l with
  | nil => simp [insertRank]
  | cons y ys ih =>
    rw [List.pairwise_cons] at h
    obtain ⟨hy, hys⟩ := h
    show (if rankLeB x y then x :: y :: ys else y :: insertRank x ys).Pairwise _
    split
    case isTrue hxy =>
      rw [List.pairwise_cons]
      refine ⟨?_, by rw [List.pairwise_cons]; exact ⟨hy, hys⟩⟩
      intro z hz
      rcases List.mem_cons.mp hz with rfl | hz
      · exact hxy
      · exact rankLeB_trans x y z hxy (hy z hz)
    case isFalse hxy =>
      rw [List.pairwise_cons]
      refine ⟨?_, ih hys⟩
      intro z hz
      rcases mem_insertRank x ys z hz with rfl | hz
      · rcases rankLeB_total z y with h' | h'
        · exact absurd h' hxy
        · exact h'
      · exact hy z hz

theorem pairwise_sortTotals (l : List (String × Int)) :
    (sortTotals l).Pairwise (fun a b => rankLeB a b = true) := by
  induction l with
  | nil => exact List.Pairwise.nil
  | cons x xs ih => exact pairwise_insertRank x _ ih

theorem rankLines_row (m : List (Int × String)) (sorted : List (String × Int))
    (i : Nat) (hi : i < sorted.length) :
    (rankLines m sorted)[i]? =
      some (joinStr ',' [natStr (i + 1), (sorted[i]).1,
        resolveName m (sorted[i]).1, pyStr (sorted[i]).2]) := by
  unfold rankLines
  rw [List.getElem?_map, List.getElem?_enum, List.getElem?_eq_getElem hi]
  rfl

/-- C1: for a non-empty store, the ranking totals are exactly the
per-raw-name point sums (keyed by the raw stored string, with one row per
distinct raw name and no merging), the rows are sorted by descending total
with ties broken by ascending lexicographic raw name, row `i` carries the
1-based rank `i+1`, the raw name, its resolution through the mapping, and
the total, and the operation prints exactly the report assembled from
these rows. -/
theorem rank_correct (s : AppState) (hne : s.entries ≠ []) :
    (∀ (n : String) (t : Int),
      (n, t) ∈ sortTotals (accumTotals s.entries) ↔
        n ∈ rawNames s.entries ∧ t = totalPoints s.entries n) ∧
    ((sortTotals (accumTotals s.entries)).map Prod.fst).Nodup ∧
    (sortTotals (accumTotals s.entries)).Pairwise (fun a b =>
      b.2 < a.2 ∨ (a.2 = b.2 ∧ strLtB b.1 a.1 = false)) ∧
    (∀ (i : Nat) (hi : i < (sortTotals (accumTotals s.entries)).length),
      (rankLines s.mapping (sortTotals (accumTotals s.entries)))[i]? =
        some (joinStr ',' [natStr (i + 1), ((sortTotals (accumTotals s.entries))[i]).1,
          resolveName s.mapping ((sortTotals (accumTotals s.entries))[i]).1,
          pyStr ((sortTotals (accumTotals s.entries))[i]).2])) ∧
    (sumAndRank true s).stdoutLog =
      s.stdoutLog ++
        [joinStr '\n'
          (rankHeader :: rankLines s.mapping (sortTotals (accumTotals s.entries)))] := by
  refine ⟨?_, ?_, ?_, ?_, ?_⟩
  · intro n t
    rw [mem_sortTotals, mem_totals_iff _ (keys_accumTotals_nodup _) n t,
        keys_accumTotals_mem, totalsGet_accumTotals]
    constructor
    · rintro ⟨h1, h2⟩; exact ⟨h1, h2.symm⟩
    · rintro ⟨h1, h2⟩; exact ⟨h1, h2.symm⟩
  · exact keys_sortTotals_nodup _ (keys_accumTotals_nodup _)
  · have himp : ∀ (a b : String × Int), rankLeB a b = true →
        (b.2 < a.2 ∨ (a.2 = b.2 ∧ strLtB b.1 a.1 = false)) := by
      intro a b h
      unfold rankLeB at h
      simp only [Bool.or_eq_true, Bool.and_eq_true, decide_eq_true_eq,
        Bool.not_eq_true'] at h
      exact h
    exact (pairwise_sortTotals _).imp (fun hab => himp _ _ hab)
  · intro i hi
    exact rankLines_row s.mapping _ i hi
  · unfold sumAndRank
    rw [if_neg (by simp [List.isEmpty_iff, hne])]
    rfl

/-- Witness for the C1 theorem at a concrete store: the totals
characterization at name "7" and the printed report. -/
theorem rank_correct_witness :
    c7State.entries ≠ [] ∧
    ((("7", (10 : Int)) ∈ sortTotals (accumTotals c7State.entries)) ↔
      ("7" ∈ rawNames c7State.entries ∧ (10 : Int) = totalPoints c7State.entries "7")) ∧
    (sumAndRank true c7State).stdoutLog =
      c7State.stdoutLog ++
        [joinStr '\n'
          (rankHeader :: rankLines c7State.mapping (sortTotals (accumTotals c7State.entries)))] :=
  ⟨by decide, (rank_correct c7State (by decide)).1 "7" 10,
   (rank_correct c7State (by decide)).2.2.2.2⟩

/-- Witness for the C7 amended theorem at the concrete store. -/
theorem rank_output_survives_witness :
    (sumAndRank false c7State).stdoutLog = (sumAndRank true c7State).stdoutLog ∧
    (sumAndRank false c7State).statusLog.getLast? =
      some "Ranking generated – see console / ranking.csv." :=
  ⟨(rank_output_survives_write_failure c7State true (by decide)).1,
   (rank_output_survives_write_failure c7State true (by decide)).2.2.2⟩

end Tarock
